import Mathlib

/-!
Shallow embedding of the turboply PLY codec library (src/turboply.hpp,
src/plystream.cpp, src/plyfile.cpp, src/turboply_util.hpp).

Conventions of the embedding:
* C++ strings are modelled as `List Char`; text streams as lists of lines,
  binary streams as lists of bytes (`Nat`, each < 256), and the scalar-level
  stream seen by the binding engine as a list of `PlyScalar` wire values.
* Machine integers are `Int`/`Nat` with explicit wrap-around (`% 2^w`)
  where the C++ code performs a narrowing or unsigned conversion.
* Fallible C++ code (functions that may `throw`) returns `Except String`.
* Floating-point kinds (FLOAT32/FLOAT64) are carried as opaque bit
  patterns; their text formatting/parsing and float-to-integer numeric
  conversion are outside the model, and every theorem below restricts its
  hypotheses so those branches are never exercised.
-/

namespace TurboPly

/-- `enum class ScalarKind : uint8_t { UNUSED, INT8, ... }` (turboply.hpp). -/
inductive ScalarKind where
  | unused | int8 | uint8 | int16 | uint16 | int32 | uint32 | float32 | float64
deriving DecidableEq, Repr

/-- `PlyScalar = std::variant<int8_t, ..., float, double>` (turboply.hpp).
Integer alternatives carry their mathematical value; float alternatives
carry the IEEE-754 bit pattern as an opaque `Nat`. -/
inductive PlyScalar where
  | i8 (v : Int) | u8 (v : Nat) | i16 (v : Int) | u16 (v : Nat)
  | i32 (v : Int) | u32 (v : Nat) | f32 (bits : Nat) | f64 (bits : Nat)
deriving DecidableEq, Repr

/-- The variant alternative currently held by a `PlyScalar`. -/
def PlyScalar.kind : PlyScalar → ScalarKind
  | .i8 _ => .int8 | .u8 _ => .uint8 | .i16 _ => .int16 | .u16 _ => .uint16
  | .i32 _ => .int32 | .u32 _ => .uint32 | .f32 _ => .float32 | .f64 _ => .float64

/-- Whether a wire value is one of the six integer alternatives (the region
of the model where C++ numeric conversions are modelled faithfully). -/
def PlyScalar.isIntLike : PlyScalar → Bool
  | .f32 _ => false | .f64 _ => false | _ => true

/-- Whether a kind is one of the six integer kinds (the kinds whose numeric
conversions the model covers). -/
def ScalarKind.isIntKind : ScalarKind → Bool
  | .int8 | .uint8 | .int16 | .uint16 | .int32 | .uint32 => true
  | _ => false

/-- The mathematical value of an integer alternative; float alternatives give
`none` (float-to-integer conversion is not modelled). -/
def PlyScalar.intVal : PlyScalar → Option Int
  | .i8 v => some v | .u8 v => some v | .i16 v => some v | .u16 v => some v
  | .i32 v => some v | .u32 v => some v | .f32 _ => none | .f64 _ => none

/-- C++ conversion of an arithmetic value to an unsigned integer of `w` bits
(modular). Used for `static_cast<uint32_t>` / `static_cast<size_t>` casts in
`ply_cast`. For a float source (not modelled) the result defaults to 0 and no
theorem below exercises that branch. -/
def castToUnsigned (w : Nat) (v : PlyScalar) : Nat :=
  ((v.intVal.getD 0) % ((2 : Int) ^ w)).toNat

/-- C++ conversion of an arithmetic value to a signed two's-complement
integer of `w` bits (modular wrap, C++20 semantics). -/
def castToSigned (w : Nat) (v : PlyScalar) : Int :=
  let m := (v.intVal.getD 0) % ((2 : Int) ^ w)
  if m < (2 : Int) ^ (w - 1) then m else m - (2 : Int) ^ w

/-- `ply_cast<T>(v)` (turboply.hpp): `std::visit` + `static_cast` to the
destination scalar type, here indexed by the destination `ScalarKind`.
Conversions with a float source or float destination are outside the model
(they produce a fixed default); all theorems below restrict to integer
sources and integer destinations. -/
def ply_cast (k : ScalarKind) (v : PlyScalar) : PlyScalar :=
  match k with
  | .int8 => .i8 (castToSigned 8 v)
  | .uint8 => .u8 (castToUnsigned 8 v)
  | .int16 => .i16 (castToSigned 16 v)
  | .uint16 => .u16 (castToUnsigned 16 v)
  | .int32 => .i32 (castToSigned 32 v)
  | .uint32 => .u32 (castToUnsigned 32 v)
  | .float32 => .f32 0
  | .float64 => .f64 0
  | .unused => v

/-- The value-initialized (`T{}`) scalar of a given kind: zero for integers,
the all-zero bit pattern (`+0.0`) for floats. The `unused` row is never
reached (readScalar rejects UNUSED before constructing a value). -/
def zeroScalar : ScalarKind → PlyScalar
  | .int8 => .i8 0 | .uint8 => .u8 0 | .int16 => .i16 0 | .uint16 => .u16 0
  | .int32 => .i32 0 | .uint32 => .u32 0 | .float32 => .f32 0 | .float64 => .f64 0
  | .unused => .u8 0

/-! ### Scalar-kind name table (plystream.cpp lines 9-33) -/

/-- `scalarKindNames` (plystream.cpp): the 9-entry table pairing each kind
with its short and descriptive spelling; the index pairing with `ScalarKind`
reflects `static_cast<ScalarKind>(i)` in `scalarKindFromString`. -/
def scalarKindNames : List (ScalarKind × List Char × List Char) :=
  [ (.unused, "unused".toList, "unused".toList),
    (.int8, "char".toList, "int8".toList),
    (.uint8, "uchar".toList, "uint8".toList),
    (.int16, "short".toList, "int16".toList),
    (.uint16, "ushort".toList, "uint16".toList),
    (.int32, "int".toList, "int32".toList),
    (.uint32, "uint".toList, "uint32".toList),
    (.float32, "float".toList, "float32".toList),
    (.float64, "double".toList, "float64".toList) ]

/-- `scalarKindToString` (plystream.cpp): serialization emits
`scalarKindNames[int(k)].first`, the short spelling. -/
def scalarKindToChars : ScalarKind → List Char
  | .unused => "unused".toList
  | .int8 => "char".toList
  | .uint8 => "uchar".toList
  | .int16 => "short".toList
  | .uint16 => "ushort".toList
  | .int32 => "int".toList
  | .uint32 => "uint".toList
  | .float32 => "float".toList
  | .float64 => "double".toList

/-- `scalarKindFromString` (plystream.cpp): linear scan over the table,
accepting either spelling; any other token throws. -/
def scalarKindFromChars (s : List Char) : Except String ScalarKind :=
  match scalarKindNames.find? (fun e => s == e.2.1 || s == e.2.2) with
  | some e => .ok e.1
  | none => .error "Ply Error: Unsupported scalar type."

/-- All spellings `scalarKindFromChars` accepts (the 16 of the claim plus
the sentinel spelling that shares the table). -/
def acceptedSpellings : List (List Char) :=
  [ "unused".toList,
    "char".toList, "int8".toList, "uchar".toList, "uint8".toList,
    "short".toList, "int16".toList, "ushort".toList, "uint16".toList,
    "int".toList, "int32".toList, "uint".toList, "uint32".toList,
    "float".toList, "float32".toList, "double".toList, "float64".toList ]

/-! ### Format detection (plyfile.cpp lines 75-93) -/

/-- `PlyBase::Format` (turboply.hpp). -/
inductive PlyFormat where
  | binary | ascii
deriving DecidableEq, Repr

/-- The ASCII format-line search substring of `detectPlyFormat`. -/
def asciiTag : List Char := "format ascii".toList

/-- The binary-little-endian search substring of `detectPlyFormat`. -/
def binLeTag : List Char := "format binary_little_endian".toList

/-- `std::string::find(needle) != npos`: does `needle` occur as a contiguous
substring of the haystack? -/
def containsSub (needle : List Char) : List Char → Bool
  | [] => needle.isPrefixOf []
  | c :: rest => needle.isPrefixOf (c :: rest) || containsSub needle rest

/-- `detectPlyFormat` (plyfile.cpp): reads at most the first 1024 bytes of
the file, searches for the two fixed substrings, and requires exactly one
to be present. -/
def detectPlyFormat (contents : List Char) : Except String PlyFormat :=
  let header := contents.take 1024
  let found_ascii := containsSub asciiTag header
  let found_bin_le := containsSub binLeTag header
  if found_ascii && !found_bin_le then .ok .ascii
  else if found_bin_le && !found_ascii then .ok .binary
  else .error "Ply Read Error: Unsupported or unrecognized PLY format in header."

/-! ### Document model (turboply.hpp) and header parsing (plystream.cpp lines 180-246) -/

/-- `PlyElement::Property` (turboply.hpp): `listKind != UNUSED` marks a list
property. -/
structure Property where
  name : List Char
  valueKind : ScalarKind
  listKind : ScalarKind
deriving DecidableEq, Repr

/-- `PlyBase::Element` (turboply.hpp). -/
structure Element where
  name : List Char
  count : Nat
  properties : List Property
deriving DecidableEq, Repr

/-- The reader-side state relevant to header parsing: the `_has_header`
flag, the accumulated `_comments` and `_elements` members, and the
remaining lines of the input stream `_is`. -/
structure ReaderState where
  hasHeader : Bool
  comments : List (List Char)
  elements : List Element
  input : List (List Char)
deriving DecidableEq, Repr

/-- `std::getline`: on an exhausted stream the line comes back empty and the
stream is unchanged (the subsequent prefix test then fails on `[]`). -/
def getline : List (List Char) → List Char × List (List Char)
  | [] => ([], [])
  | l :: t => (l, t)

/-- One step of `istringstream` whitespace tokenization. -/
def tokenizeAux : List Char → List Char → List (List Char)
  | [], acc => if acc.isEmpty then [] else [acc.reverse]
  | c :: rest, acc =>
    if c.isWhitespace then
      if acc.isEmpty then tokenizeAux rest []
      else acc.reverse :: tokenizeAux rest []
    else tokenizeAux rest (c :: acc)

/-- The whitespace-separated tokens of a line, in order (what successive
`iss >> tok` extractions produce). -/
def tokenize (l : List Char) : List (List Char) := tokenizeAux l []

/-- `iss >> e.count` for a `size_t`: reads the leading decimal digits of the
token; extraction failure (no digits) stores 0 (C++11 semantics). Sign
handling and out-of-range wrap of `size_t` extraction are not modelled. -/
def parseCountTok (t : List Char) : Nat :=
  (t.takeWhile Char.isDigit).foldl (fun a c => a * 10 + (c.toNat - '0'.toNat)) 0

/-- `current->properties.push_back(p)`: append a property to the element
most recently opened by an `element` line (the back of `_elements`). -/
def appendPropToLast : List Element → Property → List Element
  | [], _ => []
  | [e], p => [{ e with properties := e.properties ++ [p] }]
  | e :: t, p => e :: appendPropToLast t p

/-- `FormatHandler::formatHeader()` of the two handlers
(plystream.cpp lines 109-111 and 151-153). -/
def formatHeaderChars : PlyFormat → List Char
  | .binary => "format binary_little_endian 1.0".toList
  | .ascii => "format ascii 1.0".toList

/-- The body loop of `PlyStreamReader::parseHeader` (plystream.cpp lines
195-233): one iteration per line until a line starting with `end_header`
or stream exhaustion; returns the comments, the elements, and the lines
left unread. Errors: a `comment` line shorter than 8 characters
(`line.substr(8)` throws `std::out_of_range`), a `property` line with no
enclosing element, and an unrecognized scalar-kind token. -/
def parseBody :
    List (List Char) → List (List Char) → List Element → Bool →
    Except String (List (List Char) × List Element × List (List Char))
  | [], cs, es, _ => .ok (cs, es, [])
  | line :: rest, cs, es, hasCur =>
    if "end_header".toList.isPrefixOf line then .ok (cs, es, rest)
    else
      match tokenize line with
      | [] => parseBody rest cs es hasCur
      | tok :: restToks =>
        if tok == "comment".toList then
          if line.length < 8 then .error "Ply Read Error: comment line too short for substr."
          else parseBody rest (cs ++ [line.drop 8]) es hasCur
        else if tok == "element".toList then
          let nm := restToks.headD []
          let cnt := parseCountTok ((restToks.drop 1).headD [])
          parseBody rest cs (es ++ [{ name := nm, count := cnt, properties := [] }]) true
        else if tok == "property".toList then
          if !hasCur then .error "Ply Read Error: Property defined without a parent element."
          else
            let t := restToks.headD []
            if t == "list".toList then
              match scalarKindFromChars ((restToks.drop 1).headD []) with
              | .error e => .error e
              | .ok lk =>
                match scalarKindFromChars ((restToks.drop 2).headD []) with
                | .error e => .error e
                | .ok vk =>
                  let nm := (restToks.drop 3).headD []
                  parseBody rest cs
                    (appendPropToLast es { name := nm, valueKind := vk, listKind := lk }) hasCur
            else
              match scalarKindFromChars t with
              | .error e => .error e
              | .ok vk =>
                let nm := (restToks.drop 1).headD []
                parseBody rest cs
                  (appendPropToLast es { name := nm, valueKind := vk, listKind := .unused }) hasCur
        else parseBody rest cs es hasCur

/-- The line-level phase of `PlyStreamReader::parseHeader`: the `ply`
magic line and the format line are matched by `starts_with` (prefix, not
equality), then the body loop runs with no current element. -/
def parseHeaderLines (fmt : PlyFormat) (input : List (List Char))
    (cs : List (List Char)) (es : List Element) :
    Except String (List (List Char) × List Element × List (List Char)) :=
  let (l1, in1) := getline input
  if !("ply".toList.isPrefixOf l1) then
    .error "Ply Read Error: Invalid file format (missing ply magic number)."
  else
    let (l2, in2) := getline in1
    if !((formatHeaderChars fmt).isPrefixOf l2) then
      .error "Ply Read Error: Unsupported PLY format."
    else parseBody in2 cs es false

/-- `PlyStreamReader::parseHeader` (plystream.cpp lines 180-236): a no-op
once `_has_header` is set; otherwise parses the header lines into the
`_comments` and `_elements` members and sets `_has_header`. -/
def parseHeader (fmt : PlyFormat) (s : ReaderState) : Except String ReaderState :=
  if s.hasHeader then .ok s
  else
    match parseHeaderLines fmt s.input s.comments s.elements with
    | .error e => .error e
    | .ok (cs, es, rest) =>
      .ok { hasHeader := true, comments := cs, elements := es, input := rest }

/-- `PlyStreamReader::getComments` (plystream.cpp lines 238-241): invokes
the parse, then returns the `_comments` member. -/
def getComments (fmt : PlyFormat) (s : ReaderState) :
    Except String (List (List Char) × ReaderState) :=
  (parseHeader fmt s).map fun s' => (s'.comments, s')

/-- `PlyStreamReader::getElements` (plystream.cpp lines 243-246): invokes
the parse, then returns the `_elements` member. -/
def getElements (fmt : PlyFormat) (s : ReaderState) :
    Except String (List Element × ReaderState) :=
  (parseHeader fmt s).map fun s' => (s'.elements, s')

/-! ### Scalar codec (plystream.cpp lines 55-160)

`FormatHandler::visitScalar` dispatches on the kind and throws
"Unsupported scalar kind" for UNUSED before any read is attempted; both
`readImpl`s below therefore reject UNUSED first. -/

/-- `sizeof(T)` for the dispatched scalar type. -/
def byteSize : ScalarKind → Nat
  | .unused => 0
  | .int8 => 1 | .uint8 => 1 | .int16 => 2 | .uint16 => 2
  | .int32 => 4 | .uint32 => 4 | .float32 => 4 | .float64 => 8

/-- Little-endian base-256 value of a byte list. -/
def leNat : List Nat → Nat
  | [] => 0
  | b :: t => b + 256 * leNat t

/-- Reassemble the dispatched scalar type from its little-endian bytes
(the host is little-endian by the library's stated contract); signed types
use the two's-complement reading, float types keep the raw bit pattern. -/
def decodeScalar (k : ScalarKind) (bytes : List Nat) : PlyScalar :=
  let n := leNat bytes
  let signed (w : Nat) : Int := if n < 2 ^ (w - 1) then (n : Int) else (n : Int) - 2 ^ w
  match k with
  | .int8 => .i8 (signed 8)
  | .uint8 => .u8 n
  | .int16 => .i16 (signed 16)
  | .uint16 => .u16 n
  | .int32 => .i32 (signed 32)
  | .uint32 => .u32 n
  | .float32 => .f32 n
  | .float64 => .f64 n
  | .unused => .u8 0

/-- `BinaryHandler::readImpl` (plystream.cpp lines 92-97): `T v{};` then
`is.read((char*)&v, sizeof(T))`. A short read stores only the bytes that
were available (the low-order bytes, host little-endian) and leaves the
rest of `v` zero-initialized; no exception is thrown. -/
def binReadScalar (k : ScalarKind) (bytes : List Nat) :
    Except String (PlyScalar × List Nat) :=
  if k = .unused then .error "Ply Error: Unsupported scalar kind."
  else
    let sz := byteSize k
    let chunk := bytes.take sz
    .ok (decodeScalar k (chunk ++ List.replicate (sz - chunk.length) 0), bytes.drop sz)

/-- `std::from_chars` on the token for a signed/unsigned integer type of
`bits` bits, plus the `ec != std::errc()` check of
`AsciiHandler::readImpl`: no leading digits is `invalid_argument`, a value
outside the type's range is `result_out_of_range`, and either one makes
`readImpl` throw. Trailing non-digit characters are ignored, as
`from_chars` stops at the first non-digit and `readImpl` does not check
that the whole token was consumed. -/
def parseIntToken (signed : Bool) (bits : Nat) (t : List Char) : Except String Int :=
  let (neg, body) :=
    match t with
    | '-' :: r => if signed then (true, r) else (false, t)
    | _ => (false, t)
  let ds := body.takeWhile Char.isDigit
  if ds.isEmpty then .error "Ply Read Error: Failed to parse ASCII value."
  else
    let mag : Int := ds.foldl (fun a c => a * 10 + ((c.toNat : Int) - ('0'.toNat : Int))) 0
    let n : Int := if neg then -mag else mag
    let lo : Int := if signed then -(2 ^ (bits - 1)) else 0
    let hi : Int := if signed then 2 ^ (bits - 1) - 1 else 2 ^ bits - 1
    if n < lo || hi < n then .error "Ply Read Error: Failed to parse ASCII value."
    else .ok n

/-- The per-kind token parse dispatched by `AsciiHandler::readImpl`.
Float text parsing (`from_chars` for `float`/`double`) is floating-point
behavior outside the model: the float rows return a fixed bit pattern and
no theorem below evaluates them (the claims proved here only concern the
exhausted-input path and integer kinds). -/
def parseTokenAt (k : ScalarKind) (t : List Char) : Except String PlyScalar :=
  match k with
  | .unused => .error "Ply Error: Unsupported scalar kind."
  | .int8 => (parseIntToken true 8 t).map .i8
  | .uint8 => (parseIntToken false 8 t).map (fun v => .u8 v.toNat)
  | .int16 => (parseIntToken true 16 t).map .i16
  | .uint16 => (parseIntToken false 16 t).map (fun v => .u16 v.toNat)
  | .int32 => (parseIntToken true 32 t).map .i32
  | .uint32 => (parseIntToken false 32 t).map (fun v => .u32 v.toNat)
  | .float32 => .ok (.f32 0)
  | .float64 => .ok (.f64 0)

/-- `AsciiHandler::readImpl` (plystream.cpp lines 121-132) over the
whitespace-token view of the stream: `if (!(in >> buf)) return T{};` makes
an exhausted stream yield the value-initialized scalar with no error;
otherwise the token is parsed with `from_chars`. -/
def asciiReadScalar (k : ScalarKind) (tokens : List (List Char)) :
    Except String (PlyScalar × List (List Char)) :=
  if k = .unused then .error "Ply Error: Unsupported scalar kind."
  else
    match tokens with
    | [] => .ok (zeroScalar k, [])
    | t :: rest => (parseTokenAt k t).map fun v => (v, rest)

/-! ### Binding engine, read side (turboply_util.hpp lines 360-454)

`bind_reader` interacts with the stream only through
`PlyStreamReader::readScalar`, each call of which consumes exactly one
encoded value. The engine is therefore embedded over the stream of wire
scalars in write order; a read of kind UNUSED throws (via `visitScalar`),
any other read pops the next wire value, and — matching the binary
handler's short-read behavior — an exhausted stream yields the
zero-initialized value of the requested kind. The abstraction is faithful
whenever reads occur at the kinds the values were written with, which the
theorems below require through their well-formedness hypotheses. -/

/-- `reader.readScalar(k)` at the wire-value level. -/
def readScalarV (k : ScalarKind) (s : List PlyScalar) :
    Except String (PlyScalar × List PlyScalar) :=
  if k = .unused then .error "Ply Error: Unsupported scalar kind."
  else
    match s with
    | [] => .ok (zeroScalar k, [])
    | v :: t => .ok (v, t)

/-- Read and discard `cnt` value scalars (the `for (k) readScalar` discard
loops of both the default callback and the bound-list callback). -/
def discardN (vk : ScalarKind) : Nat → List PlyScalar → Except String (List PlyScalar)
  | 0, s => .ok s
  | c + 1, s =>
    match readScalarV vk s with
    | .error e => .error e
    | .ok (_, s') => discardN vk c s'

/-- The default "consume and discard" per-property callback built at
turboply_util.hpp lines 374-386: for a list property read the length
scalar, cast it with `ply_cast<uint32_t>`, and discard that many value
scalars; for a plain property discard one value scalar. -/
def defaultColumnReader (prop : Property) (s : List PlyScalar) :
    Except String (List PlyScalar) :=
  if prop.listKind ≠ .unused then
    match readScalarV prop.listKind s with
    | .error e => .error e
    | .ok (lv, s') => discardN prop.valueKind (castToUnsigned 32 lv) s'
  else
    match readScalarV prop.valueKind s with
    | .error e => .error e
    | .ok (_, s') => .ok s'

/-- `std::vector::resize(n)` on the row's list field: keep the first
`min(old, n)` entries, value-initialize the rest. -/
def listResize (fk : ScalarKind) (old : List PlyScalar) (n : Nat) : List PlyScalar :=
  old.take n ++ List.replicate (n - old.length) (zeroScalar fk)

/-- The `for (k < limit) container[k] = ply_cast<ScalarType>(readScalar(vk))`
fill loop of the bound-list callback, filling `cnt` slots starting at
`idx`. -/
def fillFrom (vk fk : ScalarKind) (container : List PlyScalar) (idx : Nat) :
    Nat → List PlyScalar → Except String (List PlyScalar × List PlyScalar)
  | 0, s => .ok (container, s)
  | c + 1, s =>
    match readScalarV vk s with
    | .error e => .error e
    | .ok (v, s') => fillFrom vk fk (container.set idx (ply_cast fk v)) (idx + 1) c s'

/-- The bound list-field callback (turboply_util.hpp lines 405-439):
list-ness check, length read cast with `ply_cast<size_t>`, resize when the
destination is open-ended (`resizable = true`, a `std::vector` field),
fill `min(n, capacity)` slots, read-and-discard the rest. Returns the
updated container and the remaining stream. -/
def readBoundList (resizable : Bool) (prop : Property) (fk : ScalarKind)
    (old : List PlyScalar) (s : List PlyScalar) :
    Except String (List PlyScalar × List PlyScalar) :=
  if prop.listKind = .unused then
    .error "Ply Read Error: Property type mismatch. Expected LIST, but found SCALAR in file."
  else
    match readScalarV prop.listKind s with
    | .error e => .error e
    | .ok (lv, s') =>
      let n := castToUnsigned 64 lv
      let container := if resizable then listResize fk old n else old
      let capacity := container.length
      let limit := min n capacity
      match fillFrom prop.valueKind fk container 0 limit s' with
      | .error e => .error e
      | .ok (container', s'') =>
        match discardN prop.valueKind (n - limit) s'' with
        | .error e => .error e
        | .ok s''' => .ok (container', s''')

/-- The bound scalar-field callback (turboply_util.hpp lines 431-438):
scalar-ness check, then one value read cast to the field type. -/
def readBoundScalar (prop : Property) (fk : ScalarKind) (s : List PlyScalar) :
    Except String (PlyScalar × List PlyScalar) :=
  if prop.listKind ≠ .unused then
    .error "Ply Read Error: Property type mismatch. Expected SCALAR, but found LIST in file."
  else
    match readScalarV prop.valueKind s with
    | .error e => .error e
    | .ok (v, s') => .ok (ply_cast fk v, s')

/-- How one on-disk property is bound in a row: left at the default
discard callback, overridden by a plain scalar field, or overridden by a
list field (open-ended when `resizable`, with `old` the field's current
contents). -/
inductive Binding where
  | unbound
  | scalarField (fk : ScalarKind)
  | listField (resizable : Bool) (fk : ScalarKind) (old : List PlyScalar)

/-- Run one property's (possibly overridden) callback, tracking only its
effect on the stream. -/
def processProp (prop : Property) : Binding → List PlyScalar → Except String (List PlyScalar)
  | .unbound, s => defaultColumnReader prop s
  | .scalarField fk, s => (readBoundScalar prop fk s).map (·.2)
  | .listField rsz fk old, s => (readBoundList rsz prop fk old s).map (·.2)

/-- The inner row loop of `bind_reader` (turboply_util.hpp lines 450-452):
`for (auto& rd : columnReaders) rd(ri)` — the callbacks run in the order
of `elem.properties`, the on-disk property order (never the order the
specs declare their properties in). -/
def processRow : List (Property × Binding) → List PlyScalar → Except String (List PlyScalar)
  | [], s => .ok s
  | (p, b) :: t, s =>
    match processProp p b s with
    | .error e => .error e
    | .ok s' => processRow t s'

/-- The outer row loop: rows `0 .. count-1`, each running every property
callback. -/
def processRows (pbs : List (Property × Binding)) : Nat → List PlyScalar →
    Except String (List PlyScalar)
  | 0, s => .ok s
  | c + 1, s =>
    match processRow pbs s with
    | .error e => .error e
    | .ok s' => processRows pbs c s'

/-- The wire encoding of one property's value within a row is well-formed:
a plain property contributes exactly one value scalar; a list property
contributes a length scalar (an integer alternative whose
`ply_cast<uint32_t>` and `ply_cast<size_t>` images both equal the number
of values that follow, as holds for every length the writer emits)
followed by exactly that many value scalars. Kinds are non-UNUSED. -/
def segWF (p : Property) (seg : List PlyScalar) : Bool :=
  if p.listKind = .unused then p.valueKind != .unused && seg.length == 1
  else
    match seg with
    | [] => false
    | lv :: vs =>
      p.valueKind != .unused && lv.isIntLike &&
        (castToUnsigned 32 lv == vs.length) && (castToUnsigned 64 lv == vs.length)

/-- A binding is compatible with its on-disk property: a scalar field only
overrides a plain property, a list field only overrides a list property
(otherwise the callback throws the TypeMismatch error, which is not this
claim's subject). -/
def bindingCompat (p : Property) : Binding → Bool
  | .unbound => true
  | .scalarField _ => p.listKind == .unused
  | .listField _ _ _ => p.listKind != .unused

/-! ### Binding engine, spec containers and write-side merge
(turboply_util.hpp lines 193-277 and 456-527) -/

/-- The runtime content of a `PropertySpec`: its compile-time element
name, the current size of `_column_view`, whether `_column_data` is
non-null (an owning spec wrapping a resizable vector, as opposed to a
borrowing fixed-size view), and the property list its `create()`
contributes. -/
structure SpecModel where
  elementName : List Char
  viewSize : Nat
  owning : Bool
  props : List Property
deriving DecidableEq, Repr

/-- `PropertySpec::resize` (turboply_util.hpp lines 232-242): an owning
spec resizes its vector to `n` and re-spans it; a borrowing spec only
checks that its view already has exactly `n` rows and throws the element
count mismatch error otherwise. -/
def SpecModel.resizeSpec (sp : SpecModel) (n : Nat) : Except String SpecModel :=
  if sp.owning then .ok { sp with viewSize := n }
  else if sp.viewSize ≠ n then
    .error "Ply Error: Element count mismatch."
  else .ok sp

/-- `PropertySpec::create` (turboply_util.hpp lines 256-272): one element
whose count is the current view size and whose properties are the spec's
declared columns. -/
def SpecModel.create (sp : SpecModel) : Element :=
  { name := sp.elementName, count := sp.viewSize, properties := sp.props }

/-- `it->properties.insert(it->properties.end(), ...)` applied at the
first element whose name matches (the iterator `std::find_if` returns). -/
def mergeIntoFirst : List Element → Element → List Element
  | [], _ => []
  | u :: t, e =>
    if u.name == e.name then { u with properties := u.properties ++ e.properties } :: t
    else u :: mergeIntoFirst t e

/-- The element-accumulation loop of `bind_writer` (turboply_util.hpp
lines 462-483): each spec's `create()` result is merged into
`unique_elements`; a same-named element whose stored count differs from
the new contribution's count throws the element count mismatch error,
otherwise the property lists are concatenated in spec-argument order. -/
def mergeElems : List Element → List Element → Except String (List Element)
  | acc, [] => .ok acc
  | acc, e :: rest =>
    match acc.find? (fun u => u.name == e.name) with
    | some u =>
      if u.count ≠ e.count then
        .error "Ply Write Error: Element count mismatch."
      else mergeElems (mergeIntoFirst acc e) rest
    | none => mergeElems (acc ++ [e]) rest

/-- Row counts agree across a collection of contributed elements: any two
that share a name share a count. -/
def countsAgree (l : List Element) : Prop :=
  ∀ a ∈ l, ∀ b ∈ l, a.name = b.name → a.count = b.count

/-- The (name, count) key of an element — the part of an element that the
count-mismatch check of `bind_writer` looks at. -/
def elemKey (e : Element) : List Char × Nat := (e.name, e.count)

/-- `countsAgree` at the key level. -/
def keysAgree (l : List (List Char × Nat)) : Prop :=
  ∀ a ∈ l, ∀ b ∈ l, a.1 = b.1 → a.2 = b.2

/-! ### Memory-mapped write buffer (plyfile.cpp lines 9-67)

`mapped_file_buf` in write mode: `setp(p, p + size)` exposes the reserved
region; positions are modelled as offsets from `pbase()`. The state also
carries the high-water mark — the furthest byte offset ever written — as
a ghost field: the C++ object does not track it, which is exactly what
the claim about the close-time truncation is measured against. -/

structure MapBuf where
  /-- `epptr() - pbase()`: the reserved extent. -/
  ext : Nat
  /-- `pptr() - pbase()`: the current put position. -/
  pos : Nat
  /-- Ghost: the furthest byte offset actually written. -/
  hw : Nat
deriving DecidableEq, Repr

/-- `std::ios_base::seekdir`. -/
inductive SeekDir where
  | beg | cur | sEnd
deriving DecidableEq, Repr

/-- An output operation on the mapped buffer: a sequential write of `n`
bytes (which the claim restricts to the reserved extent; the default
`streambuf` machinery advances `pptr` by the bytes stored), or a seek. -/
inductive WOp where
  | write (n : Nat)
  | seek (dir : SeekDir) (off : Int)
deriving DecidableEq, Repr

/-- Writing through the put area: the default `xsputn`/`sputc` machinery
stores bytes while `pptr() < epptr()` and there is no `overflow`
override, so `min n (ext - pos)` bytes are stored and `pptr` advances by
that amount. The ghost high-water mark records the furthest offset
reached. -/
def MapBuf.writeBytes (b : MapBuf) (n : Nat) : MapBuf :=
  let stored := min n (b.ext - b.pos)
  { b with pos := b.pos + stored, hw := max b.hw (b.pos + stored) }

/-- `mapped_file_buf::seekoff` (plyfile.cpp lines 47-62): the target is
resolved against `pbase`/`pptr`/`epptr`; a target inside the reserved
extent repositions `pptr` and returns the new offset, anything else
returns `pos_type(-1)` without mutating state. -/
def MapBuf.seekoff (b : MapBuf) (dir : SeekDir) (off : Int) : MapBuf × Int :=
  let target : Int :=
    match dir with
    | .beg => off
    | .cur => (b.pos : Int) + off
    | .sEnd => (b.ext : Int) + off
  if 0 ≤ target ∧ target ≤ (b.ext : Int) then ({ b with pos := target.toNat }, target)
  else (b, -1)

/-- Apply one output operation. -/
def MapBuf.step (b : MapBuf) : WOp → MapBuf
  | .write n => b.writeBytes n
  | .seek dir off => (b.seekoff dir off).1

/-- Run a sequence of output operations from a fresh mapping of reserved
size `ext` (`pptr = pbase`, nothing written yet). -/
def runOps (ext : Nat) (ops : List WOp) : MapBuf :=
  ops.foldl MapBuf.step { ext := ext, pos := 0, hw := 0 }

/-- `mapped_file_buf::~mapped_file_buf` (plyfile.cpp lines 36-44) in write
mode: after unmapping, `resize_file(filename, pptr() - pbase())` — the
final file size is the current put position. -/
def MapBuf.closeLen (b : MapBuf) : Nat := b.pos

/-- `AsciiHandler::writeLineEnd` (plystream.cpp lines 155-159) as seen by
the buffer: `seekp(tellp() - 1)` then `put('\n')`. -/
def lineEndOps : List WOp := [.seek .cur (-1), .write 1]

/-! ## Helper lemmas -/

theorem isPrefixOf_ex (l₁ l₂ : List Char) :
    l₁.isPrefixOf l₂ = true ↔ ∃ t, l₂ = l₁ ++ t := by
  induction l₁ generalizing l₂ with
  | nil => simp [List.isPrefixOf]
  | cons a as ih =>
    cases l₂ with
    | nil => simp [List.isPrefixOf]
    | cons b bs =>
      simp only [List.isPrefixOf, Bool.and_eq_true, beq_iff_eq, ih, List.cons_append,
        List.cons.injEq]
      constructor
      · rintro ⟨rfl, t, rfl⟩
        exact ⟨t, rfl, rfl⟩
      · rintro ⟨t, rfl, rfl⟩
        exact ⟨rfl, t, rfl⟩

theorem isPrefixOf_append_self (l t : List Char) : l.isPrefixOf (l ++ t) = true :=
  (isPrefixOf_ex l (l ++ t)).mpr ⟨t, rfl⟩

theorem containsSub_ex (n h : List Char) :
    containsSub n h = true ↔ ∃ pre post, h = pre ++ n ++ post := by
  induction h with
  | nil =>
    simp only [containsSub, isPrefixOf_ex]
    constructor
    · rintro ⟨t, ht⟩
      exact ⟨[], t, by simpa using ht⟩
    · rintro ⟨pre, post, hp⟩
      refine ⟨post, ?_⟩
      rcases List.append_eq_nil.mp hp.symm with ⟨h1, h2⟩
      rcases List.append_eq_nil.mp h1 with ⟨rfl, rfl⟩
      simpa using hp
  | cons c r ih =>
    simp only [containsSub, Bool.or_eq_true, isPrefixOf_ex, ih]
    constructor
    · rintro (⟨t, ht⟩ | ⟨pre, post, hp⟩)
      · exact ⟨[], t, by simpa using ht⟩
      · exact ⟨c :: pre, post, by simp [hp]⟩
    · rintro ⟨pre, post, hp⟩
      cases pre with
      | nil => exact Or.inl ⟨post, by simpa using hp⟩
      | cons x xs =>
        simp only [List.cons_append, List.cons.injEq] at hp
        exact Or.inr ⟨xs, post, hp.2⟩

/-! ## Claim theorems -/

/-- C4: `detectPlyFormat` inspects at most the first 1024 bytes of the
file; it returns ASCII exactly when that prefix contains the ASCII format
substring and not the binary-little-endian one, BINARY exactly when it
contains the binary-little-endian substring and not the ASCII one, and
raises a fatal error exactly when both substrings are present or neither
is (substring presence stated as an explicit decomposition). -/
theorem detect_format_spec :
    (∀ contents : List Char,
      detectPlyFormat contents = detectPlyFormat (contents.take 1024)) ∧
    (∀ contents : List Char,
      (detectPlyFormat contents = .ok .ascii ↔
        (∃ pre post, contents.take 1024 = pre ++ asciiTag ++ post) ∧
        ¬ (∃ pre post, contents.take 1024 = pre ++ binLeTag ++ post))) ∧
    (∀ contents : List Char,
      (detectPlyFormat contents = .ok .binary ↔
        (∃ pre post, contents.take 1024 = pre ++ binLeTag ++ post) ∧
        ¬ (∃ pre post, contents.take 1024 = pre ++ asciiTag ++ post))) ∧
    (∀ contents : List Char,
      ((∃ e, detectPlyFormat contents = .error e) ↔
        ((∃ pre post, contents.take 1024 = pre ++ asciiTag ++ post) ↔
          (∃ pre post, contents.take 1024 = pre ++ binLeTag ++ post)))) := by
  refine ⟨?_, ?_, ?_, ?_⟩ <;> intro contents
  · simp [detectPlyFormat, List.take_take]
  all_goals
    rw [← containsSub_ex asciiTag, ← containsSub_ex binLeTag]
  all_goals
    cases hfa : containsSub asciiTag (contents.take 1024) <;>
      cases hfb : containsSub binLeTag (contents.take 1024) <;>
        simp [detectPlyFormat, hfa, hfb]

/-- C4 witness: a minimal ASCII header detected as ASCII, hence its first
kilobyte contains the ASCII substring and not the binary one. -/
theorem detect_format_spec_witness :
    (∃ pre post,
      ("ply\nformat ascii 1.0\n".toList).take 1024 = pre ++ asciiTag ++ post) ∧
    ¬ (∃ pre post,
      ("ply\nformat ascii 1.0\n".toList).take 1024 = pre ++ binLeTag ++ post) :=
  (detect_format_spec.2.1 ("ply\nformat ascii 1.0\n".toList)).mp rfl

/-- C6 counterexample: the scalar-kind token `unused` is outside the 16
claimed spellings, yet `scalarKindFromString` accepts it (the shared
9-entry table begins with the sentinel row), returning the UNUSED kind
instead of raising the fatal header-parse error. -/
theorem scalar_kind_unused_token_accepted :
    scalarKindFromChars ("unused".toList) = .ok .unused := rfl

/-- C6 (amended): each of the 16 spellings parses to its kind, parsing the
serialized (short) name of any kind returns that kind, and any token
outside the 16 spellings other than the sentinel spelling `unused` (which
parses to the UNUSED sentinel) is rejected with the fatal error. -/
theorem scalar_kind_names_spec :
    (scalarKindFromChars ("char".toList) = .ok .int8 ∧
      scalarKindFromChars ("int8".toList) = .ok .int8) ∧
    (scalarKindFromChars ("uchar".toList) = .ok .uint8 ∧
      scalarKindFromChars ("uint8".toList) = .ok .uint8) ∧
    (scalarKindFromChars ("short".toList) = .ok .int16 ∧
      scalarKindFromChars ("int16".toList) = .ok .int16) ∧
    (scalarKindFromChars ("ushort".toList) = .ok .uint16 ∧
      scalarKindFromChars ("uint16".toList) = .ok .uint16) ∧
    (scalarKindFromChars ("int".toList) = .ok .int32 ∧
      scalarKindFromChars ("int32".toList) = .ok .int32) ∧
    (scalarKindFromChars ("uint".toList) = .ok .uint32 ∧
      scalarKindFromChars ("uint32".toList) = .ok .uint32) ∧
    (scalarKindFromChars ("float".toList) = .ok .float32 ∧
      scalarKindFromChars ("float32".toList) = .ok .float32) ∧
    (scalarKindFromChars ("double".toList) = .ok .float64 ∧
      scalarKindFromChars ("float64".toList) = .ok .float64) ∧
    (∀ k, scalarKindFromChars (scalarKindToChars k) = .ok k) ∧
    (∀ s : List Char, s ∉ acceptedSpellings →
      scalarKindFromChars s = .error "Ply Error: Unsupported scalar type.") := by
  refine ⟨⟨rfl, rfl⟩, ⟨rfl, rfl⟩, ⟨rfl, rfl⟩, ⟨rfl, rfl⟩, ⟨rfl, rfl⟩, ⟨rfl, rfl⟩,
    ⟨rfl, rfl⟩, ⟨rfl, rfl⟩, fun k => by cases k <;> rfl, ?_⟩
  intro s hs
  have hnone : scalarKindNames.find? (fun e => s == e.2.1 || s == e.2.2) = none := by
    rw [List.find?_eq_none]
    intro e he
    simp only [scalarKindNames, List.mem_cons, List.not_mem_nil, or_false] at he
    simp only [acceptedSpellings, List.mem_cons, List.not_mem_nil, or_false] at hs
    push_neg at hs
    rcases he with rfl | rfl | rfl | rfl | rfl | rfl | rfl | rfl | rfl <;>
      simp_all
  simp [scalarKindFromChars, hnone]

/-- C6 witness for the amended theorem: the token `int64` is outside the
accepted spellings and is rejected. -/
theorem scalar_kind_names_spec_witness :
    scalarKindFromChars ("int64".toList) = .error "Ply Error: Unsupported scalar type." :=
  scalar_kind_names_spec.2.2.2.2.2.2.2.2.2 ("int64".toList) (by decide)

/-- C9: for both codecs, `readScalar` on an exhausted input raises no
error and returns the value-initialized zero of the requested kind: the
binary reader returns its zero-initialized buffer when the byte read
fails, the ASCII reader returns a default value when token extraction
fails. -/
theorem read_scalar_exhausted_zero :
    ∀ k : ScalarKind, k ≠ .unused →
      binReadScalar k [] = .ok (zeroScalar k, []) ∧
      asciiReadScalar k [] = .ok (zeroScalar k, []) := by
  intro k hk
  cases k
  case unused => exact absurd rfl hk
  all_goals exact ⟨rfl, rfl⟩

/-- C9 witness at FLOAT64. -/
theorem read_scalar_exhausted_zero_witness :
    binReadScalar .float64 [] = .ok (zeroScalar .float64, []) ∧
    asciiReadScalar .float64 [] = .ok (zeroScalar .float64, []) :=
  read_scalar_exhausted_zero .float64 (by decide)

theorem parseHeader_ok_hasHeader (fmt : PlyFormat) (s s' : ReaderState)
    (h : parseHeader fmt s = .ok s') : s'.hasHeader = true := by
  unfold parseHeader at h
  split at h
  · cases h
    assumption
  · rcases hpl : parseHeaderLines fmt s.input s.comments s.elements with e | ⟨cs, es, rest⟩
    · rw [hpl] at h
      simp at h
    · rw [hpl] at h
      cases h
      rfl

/-- C8: once `parseHeader` has succeeded, invoking the schema parse again
(directly, or through `getElements`/`getComments`) is a no-op: the state —
including the remaining input, so no further I/O happens — is returned
unchanged, with the same comment list and element list. -/
theorem parse_header_idempotent :
    ∀ (fmt : PlyFormat) (s s' : ReaderState), parseHeader fmt s = .ok s' →
      parseHeader fmt s' = .ok s' ∧
      getElements fmt s' = .ok (s'.elements, s') ∧
      getComments fmt s' = .ok (s'.comments, s') := by
  intro fmt s s' h
  have hh := parseHeader_ok_hasHeader fmt s s' h
  have hp : parseHeader fmt s' = .ok s' := by
    unfold parseHeader
    rw [if_pos hh]
  exact ⟨hp, by simp [getElements, hp, Except.map], by simp [getComments, hp, Except.map]⟩

/-- C8 witness: a parse of a tiny concrete header, then the theorem
applied to its result. -/
theorem parse_header_idempotent_witness :
    parseHeader .ascii
        { hasHeader := true, comments := [],
          elements := [{ name := "vertex".toList, count := 2,
                         properties := [{ name := "x".toList, valueKind := .float32,
                                          listKind := .unused }] }],
          input := ["rowdata".toList] } =
      .ok
        { hasHeader := true, comments := [],
          elements := [{ name := "vertex".toList, count := 2,
                         properties := [{ name := "x".toList, valueKind := .float32,
                                          listKind := .unused }] }],
          input := ["rowdata".toList] } :=
  (parse_header_idempotent .ascii
    { hasHeader := false, comments := [], elements := [],
      input := ["ply".toList, "format ascii 1.0".toList, "element vertex 2".toList,
        "property float x".toList, "end_header".toList, "rowdata".toList] }
    _ rfl).1

/-- C10: `parseHeader` matches the structural header lines by prefix, not
exact equality: any first line starting with `ply` and any second line
starting with the active encoding's format-header string are accepted
(trailing junk included), a first or second line without that prefix is a
fatal error, and the body loop terminates on any line starting with
`end_header`, leaving the following lines unread. -/
theorem parse_header_prefix_matching :
    (∀ (fmt : PlyFormat) (t₁ t₂ : List Char) (cs : List (List Char))
        (es : List Element) (rest : List (List Char)),
      parseHeader fmt
          { hasHeader := false, comments := cs, elements := es,
            input := ("ply".toList ++ t₁) :: ((formatHeaderChars fmt) ++ t₂) :: rest } =
        match parseBody rest cs es false with
        | .error e => .error e
        | .ok (cs', es', rem) =>
          .ok { hasHeader := true, comments := cs', elements := es', input := rem }) ∧
    (∀ (fmt : PlyFormat) (cs : List (List Char)) (es : List Element)
        (l₁ : List Char) (ls : List (List Char)),
      "ply".toList.isPrefixOf l₁ = false →
      parseHeader fmt
          { hasHeader := false, comments := cs, elements := es, input := l₁ :: ls } =
        .error "Ply Read Error: Invalid file format (missing ply magic number).") ∧
    (∀ (fmt : PlyFormat) (cs : List (List Char)) (es : List Element)
        (t₁ l₂ : List Char) (ls : List (List Char)),
      (formatHeaderChars fmt).isPrefixOf l₂ = false →
      parseHeader fmt
          { hasHeader := false, comments := cs, elements := es,
            input := ("ply".toList ++ t₁) :: l₂ :: ls } =
        .error "Ply Read Error: Unsupported PLY format.") ∧
    (∀ (t₃ : List Char) (cs : List (List Char)) (es : List Element) (b : Bool)
        (rest : List (List Char)),
      parseBody (("end_header".toList ++ t₃) :: rest) cs es b = .ok (cs, es, rest)) := by
  refine ⟨?_, ?_, ?_, ?_⟩
  · intro fmt t₁ t₂ cs es rest
    simp [parseHeader, parseHeaderLines, getline, isPrefixOf_append_self]
  · intro fmt cs es l₁ ls h
    have h' : (['p', 'l', 'y'] : List Char).isPrefixOf l₁ = false := h
    simp [parseHeader, parseHeaderLines, getline, h, h']
  · intro fmt cs es t₁ l₂ ls h
    simp [parseHeader, parseHeaderLines, getline, isPrefixOf_append_self, h]
  · intro t₃ cs es b rest
    simp [parseBody, isPrefixOf_append_self]

/-- C10 witness: a first line without the `ply` prefix is rejected, and a
format line not starting with the ASCII handler's header string is
rejected. -/
theorem parse_header_prefix_matching_witness :
    parseHeader .binary
        { hasHeader := false, comments := [], elements := [], input := ["xply".toList] } =
      .error "Ply Read Error: Invalid file format (missing ply magic number)." ∧
    parseHeader .ascii
        { hasHeader := false, comments := [], elements := [],
          input := ("ply".toList ++ " magic".toList) ::
            "format binary_little_endian 1.0".toList :: [] } =
      .error "Ply Read Error: Unsupported PLY format." :=
  ⟨parse_header_prefix_matching.2.1 .binary [] [] ("xply".toList) [] (by decide),
   parse_header_prefix_matching.2.2.1 .ascii [] [] (" magic".toList)
     ("format binary_little_endian 1.0".toList) [] (by decide)⟩

/-- C7 counterexample: the destructor truncates to `pptr() - pbase()`, the
current put position, not the furthest byte offset written. Writing 2
bytes into a 10-byte reservation and then seeking (in-extent) back to
offset 0 before closing truncates the file to 0 bytes although the
high-water mark is 2, so the claimed equality fails for this sequence of
in-extent writes and seeks. -/
theorem truncate_not_high_water :
    (runOps 10 [.write 2, .seek .beg 0]).closeLen = 0 ∧
    (runOps 10 [.write 2, .seek .beg 0]).hw = 2 ∧ (0 : Nat) ≠ 2 :=
  ⟨rfl, rfl, by decide⟩

theorem writes_pos_eq_hw (ns : List Nat) (b : MapBuf) (h : b.pos = b.hw) :
    (List.foldl MapBuf.step b (ns.map WOp.write)).pos =
      (List.foldl MapBuf.step b (ns.map WOp.write)).hw := by
  induction ns generalizing b with
  | nil => simpa using h
  | cons n ns ih =>
    simp only [List.map_cons, List.foldl_cons]
    apply ih
    simp only [MapBuf.step, MapBuf.writeBytes]
    omega

/-- C7 (amended): on close the mapped write buffer truncates the file to
the current put position (`pptr() - pbase()`), which is the high-water
mark for every write-only operation sequence; the ASCII line-end pattern
(seek back one byte, write one byte) leaves the buffer state — position
and high-water mark alike — exactly unchanged; but a sequence leaving the
put pointer below the high-water mark at close truncates below it (see
the counterexample). -/
theorem mapped_close_truncates_to_position :
    (∀ (ext : Nat) (ops : List WOp), (runOps ext ops).closeLen = (runOps ext ops).pos) ∧
    (∀ (ext : Nat) (ns : List Nat),
      (runOps ext (ns.map WOp.write)).closeLen = (runOps ext (ns.map WOp.write)).hw) ∧
    (∀ b : MapBuf, b.pos = b.hw → 1 ≤ b.pos → b.pos ≤ b.ext →
      List.foldl MapBuf.step b lineEndOps = b) := by
  refine ⟨fun ext ops => rfl, ?_, ?_⟩
  · intro ext ns
    exact writes_pos_eq_hw ns { ext := ext, pos := 0, hw := 0 } rfl
  · intro b h1 h2 h3
    obtain ⟨ext, pos, hw⟩ := b
    simp only at h1 h2 h3
    simp only [lineEndOps, List.foldl_cons, List.foldl_nil, MapBuf.step, MapBuf.seekoff]
    rw [if_pos (by constructor <;> omega)]
    simp only [MapBuf.writeBytes, MapBuf.mk.injEq]
    refine ⟨trivial, ?_, ?_⟩ <;> omega

/-- C7 witness for the amended theorem: the line-end back-seek pattern at
position 3 of a 10-byte reservation leaves the buffer unchanged. -/
theorem mapped_close_truncates_to_position_witness :
    List.foldl MapBuf.step { ext := 10, pos := 3, hw := 3 } lineEndOps =
      ({ ext := 10, pos := 3, hw := 3 } : MapBuf) :=
  mapped_close_truncates_to_position.2.2 { ext := 10, pos := 3, hw := 3 } rfl
    (by decide) (by decide)

theorem mergeIntoFirst_key (acc : List Element) (e : Element) :
    (mergeIntoFirst acc e).map elemKey = acc.map elemKey := by
  induction acc with
  | nil => rfl
  | cons u t ih =>
    simp only [mergeIntoFirst]
    split
    · simp [elemKey]
    · simp [ih]

theorem countsAgree_iff_keys (l : List Element) :
    countsAgree l ↔ keysAgree (l.map elemKey) := by
  constructor
  · rintro h a ha b hb hab
    simp only [List.mem_map] at ha hb
    obtain ⟨x, hx, rfl⟩ := ha
    obtain ⟨y, hy, rfl⟩ := hb
    exact h x hx y hy hab
  · intro h a ha b hb hab
    exact h _ (List.mem_map_of_mem _ ha) _ (List.mem_map_of_mem _ hb) hab

theorem keysAgree_dedup {x : List Char × Nat} {l₁ l₂ : List (List Char × Nat)}
    (hx : x ∈ l₁) : keysAgree (l₁ ++ x :: l₂) ↔ keysAgree (l₁ ++ l₂) := by
  constructor
  · intro h a ha b hb
    apply h <;> (simp only [List.mem_append, List.mem_cons] at *; tauto)
  · intro h a ha b hb hab
    have ma : a ∈ l₁ ++ l₂ := by
      simp only [List.mem_append, List.mem_cons] at ha ⊢
      rcases ha with h1 | (rfl | h2)
      · exact Or.inl h1
      · exact Or.inl hx
      · exact Or.inr h2
    have mb : b ∈ l₁ ++ l₂ := by
      simp only [List.mem_append, List.mem_cons] at hb ⊢
      rcases hb with h1 | (rfl | h2)
      · exact Or.inl h1
      · exact Or.inl hx
      · exact Or.inr h2
    exact h a ma b mb hab

theorem keysAgree_of_distinct {l : List (List Char × Nat)}
    (h : l.Pairwise (fun a b => a.1 ≠ b.1)) : keysAgree l := by
  intro a ha b hb hab
  by_cases hEq : a = b
  · rw [hEq]
  · have hsymm : Symmetric (fun a b : List Char × Nat => a.1 ≠ b.1) :=
      fun _ _ hxy he => hxy he.symm
    exact absurd hab (h.forall hsymm ha hb hEq)

theorem mergeElems_error_msg (rest acc : List Element) :
    (∃ us, mergeElems acc rest = .ok us) ∨
      mergeElems acc rest = .error "Ply Write Error: Element count mismatch." := by
  induction rest generalizing acc with
  | nil => exact Or.inl ⟨acc, rfl⟩
  | cons e rest ih =>
    simp only [mergeElems]
    rcases hf : acc.find? (fun u => u.name == e.name) with _ | u <;> simp only [hf]
    · exact ih (acc ++ [e])
    · by_cases hc : u.count ≠ e.count
      · rw [if_pos hc]
        exact Or.inr rfl
      · rw [if_neg hc]
        exact ih (mergeIntoFirst acc e)

theorem mergeElems_ok_iff (rest acc : List Element)
    (hd : (acc.map elemKey).Pairwise (fun a b => a.1 ≠ b.1)) :
    (∃ us, mergeElems acc rest = .ok us) ↔ countsAgree (acc ++ rest) := by
  induction rest generalizing acc with
  | nil =>
    simp only [mergeElems, List.append_nil]
    refine iff_of_true ⟨acc, rfl⟩ ?_
    rw [countsAgree_iff_keys]
    exact keysAgree_of_distinct hd
  | cons e rest ih =>
    simp only [mergeElems]
    rcases hf : acc.find? (fun u => u.name == e.name) with _ | u <;> simp only [hf]
    · -- no same-named element accumulated yet: append and recurse
      have hnames : ∀ u ∈ acc, u.name ≠ e.name := by
        intro u hu
        have := List.find?_eq_none.mp hf u hu
        simpa using this
      have hd' : ((acc ++ [e]).map elemKey).Pairwise (fun a b => a.1 ≠ b.1) := by
        rw [List.map_append, List.pairwise_append]
        refine ⟨hd, by simp, ?_⟩
        intro a ha b hb
        simp only [List.map_cons, List.map_nil, List.mem_singleton] at hb
        simp only [List.mem_map] at ha
        obtain ⟨x, hx, rfl⟩ := ha
        subst hb
        exact hnames x hx
      rw [ih (acc ++ [e]) hd']
      rw [List.append_assoc, List.singleton_append]
    · -- a same-named element exists: counts must match, then merge in place
      have hu_mem : u ∈ acc := List.mem_of_find?_eq_some hf
      have hu_name : u.name = e.name := by
        have := List.find?_some hf
        simpa using this
      by_cases hc : u.count ≠ e.count
      · rw [if_pos hc]
        refine iff_of_false ?_ ?_
        · rintro ⟨us, h⟩
          cases h
        · intro hca
          exact hc (hca u (List.mem_append_left _ hu_mem) e
            (List.mem_append_right _ (List.mem_cons_self _ _)) hu_name)
      · rw [if_neg hc]
        push_neg at hc
        have hd' : ((mergeIntoFirst acc e).map elemKey).Pairwise (fun a b => a.1 ≠ b.1) := by
          rw [mergeIntoFirst_key]
          exact hd
        rw [ih (mergeIntoFirst acc e) hd']
        have hkey : elemKey e ∈ acc.map elemKey := by
          have : elemKey u = elemKey e := by
            simp [elemKey, hu_name, hc]
          rw [← this]
          exact List.mem_map_of_mem _ hu_mem
        rw [countsAgree_iff_keys, countsAgree_iff_keys, List.map_append, mergeIntoFirst_key,
          List.map_append, List.map_cons, keysAgree_dedup hkey]

/-- C5: the ElementCountMismatch error is raised exactly when row counts
disagree. Write side: the element-accumulation loop of `bind_writer`
succeeds exactly when all contributed elements sharing a name share a
count (each spec's `create()` contributes its view size as the count),
and otherwise yields precisely the count-mismatch error. Read side:
resizing a borrowing spec succeeds exactly when its fixed view size
already equals the element's declared count and fails with the mismatch
error otherwise, while an owning spec is always resized to that count. -/
theorem element_count_mismatch_spec :
    (∀ specs : List SpecModel,
      ((∃ us, mergeElems [] (specs.map SpecModel.create) = .ok us) ↔
        countsAgree (specs.map SpecModel.create)) ∧
      (mergeElems [] (specs.map SpecModel.create) =
          .error "Ply Write Error: Element count mismatch." ↔
        ¬ countsAgree (specs.map SpecModel.create))) ∧
    (∀ (sp : SpecModel) (n : Nat), sp.owning = false →
      ((∃ sp', sp.resizeSpec n = .ok sp') ↔ sp.viewSize = n) ∧
      (sp.viewSize ≠ n → sp.resizeSpec n = .error "Ply Error: Element count mismatch.")) ∧
    (∀ (sp : SpecModel) (n : Nat), sp.owning = true →
      sp.resizeSpec n = .ok { sp with viewSize := n }) := by
  refine ⟨?_, ?_, ?_⟩
  · intro specs
    have h1 := mergeElems_ok_iff (specs.map SpecModel.create) [] (by simp)
    rw [List.nil_append] at h1
    refine ⟨h1, ?_, ?_⟩
    · intro he hca
      obtain ⟨us, hok⟩ := h1.mpr hca
      rw [hok] at he
      cases he
    · intro hna
      rcases mergeElems_error_msg (specs.map SpecModel.create) [] with ⟨us, hok⟩ | herr
      · exact absurd (h1.mp ⟨us, hok⟩) hna
      · exact herr
  · intro sp n ho
    unfold SpecModel.resizeSpec
    rw [if_neg (by simp [ho])]
    constructor
    · constructor
      · rintro ⟨sp', h⟩
        by_cases hv : sp.viewSize = n
        · exact hv
        · rw [if_pos hv] at h
          cases h
      · intro hv
        rw [if_neg (by simp [hv])]
        exact ⟨sp, rfl⟩
    · intro hne
      rw [if_pos hne]
  · intro sp n ho
    simp [SpecModel.resizeSpec, ho]

/-- C5 witness: a borrowing spec of fixed size 3 fails to resize to 5 with
the mismatch error; an owning spec of size 3 resizes to 5. -/
theorem element_count_mismatch_spec_witness :
    ({ elementName := "vertex".toList, viewSize := 3, owning := false,
       props := [] } : SpecModel).resizeSpec 5 =
      .error "Ply Error: Element count mismatch." ∧
    ({ elementName := "vertex".toList, viewSize := 3, owning := true,
       props := [] } : SpecModel).resizeSpec 5 =
      .ok { elementName := "vertex".toList, viewSize := 5, owning := true, props := [] } :=
  ⟨(element_count_mismatch_spec.2.1
      { elementName := "vertex".toList, viewSize := 3, owning := false, props := [] }
      5 rfl).2 (by decide),
   element_count_mismatch_spec.2.2
      { elementName := "vertex".toList, viewSize := 3, owning := true, props := [] }
      5 rfl⟩

theorem readScalarV_cons (k : ScalarKind) (hk : k ≠ .unused) (v : PlyScalar)
    (s : List PlyScalar) : readScalarV k (v :: s) = .ok (v, s) := by
  simp [readScalarV, hk]

theorem discardN_spec (vk : ScalarKind) (hk : vk ≠ .unused) :
    ∀ (vals rest : List PlyScalar),
      discardN vk vals.length (vals ++ rest) = .ok rest := by
  intro vals
  induction vals with
  | nil => intro rest; rfl
  | cons v vs ih =>
    intro rest
    simp only [List.length_cons, List.cons_append, discardN, readScalarV_cons vk hk]
    exact ih rest

theorem set_at_len {α : Type} (pre : List α) (m x : α) (t : List α) :
    (pre ++ m :: t).set pre.length x = pre ++ x :: t := by
  induction pre with
  | nil => rfl
  | cons a pre ih => simp [List.set_cons_succ, ih]

theorem fillFrom_spec (vk fk : ScalarKind) (hk : vk ≠ .unused) :
    ∀ (mid vals pre suf rest : List PlyScalar), vals.length = mid.length →
      fillFrom vk fk (pre ++ mid ++ suf) pre.length vals.length (vals ++ rest) =
        .ok (pre ++ vals.map (ply_cast fk) ++ suf, rest) := by
  intro mid
  induction mid with
  | nil =>
    intro vals pre suf rest hl
    obtain rfl : vals = [] := List.length_eq_zero.mp (by simpa using hl)
    simp [fillFrom]
  | cons m mid ih =>
    intro vals pre suf rest hl
    cases vals with
    | nil => simp at hl
    | cons v vs =>
      have hl' : vs.length = mid.length := by simpa using hl
      have hshape : pre ++ (m :: mid) ++ suf = pre ++ m :: (mid ++ suf) := by simp
      rw [hshape]
      simp only [List.length_cons, List.cons_append, fillFrom, readScalarV_cons vk hk]
      rw [set_at_len]
      have hshape2 : pre ++ ply_cast fk v :: (mid ++ suf) =
          (pre ++ [ply_cast fk v]) ++ mid ++ suf := by simp
      have hidx : pre.length + 1 = (pre ++ [ply_cast fk v]).length := by simp
      rw [hshape2, hidx, hl', ← hl']
      rw [ih vs (pre ++ [ply_cast fk v]) suf rest hl']
      simp

theorem fillFrom_take (vk fk : ScalarKind) (hk : vk ≠ .unused)
    (C vals rest : List PlyScalar) (L : Nat) (hLv : L ≤ vals.length)
    (hLC : L ≤ C.length) :
    fillFrom vk fk C 0 L (vals ++ rest) =
      .ok ((vals.take L).map (ply_cast fk) ++ C.drop L, vals.drop L ++ rest) := by
  have e3 : (vals.take L).length = L := by rw [List.length_take]; omega
  have e4 : (vals.take L).length = (C.take L).length := by
    rw [List.length_take, List.length_take]; omega
  have h := fillFrom_spec vk fk hk (C.take L) (vals.take L) [] (C.drop L)
    (vals.drop L ++ rest) e4
  simp only [List.nil_append, List.length_nil] at h
  rw [List.take_append_drop, e3, ← List.append_assoc, List.take_append_drop] at h
  exact h

/-- The complete run of the bound-list callback on a well-formed wire
segment, uniformly in the open-ended/fixed distinction. -/
theorem readBoundList_run (rsz : Bool) (prop : Property) (fk : ScalarKind)
    (lv : PlyScalar) (vals rest old : List PlyScalar)
    (h1 : prop.listKind ≠ .unused) (h2 : prop.valueKind ≠ .unused)
    (hlen : castToUnsigned 64 lv = vals.length) :
    readBoundList rsz prop fk old (lv :: (vals ++ rest)) =
      .ok ((vals.take (min vals.length
              (if rsz then listResize fk old vals.length else old).length)).map (ply_cast fk)
            ++ (if rsz then listResize fk old vals.length else old).drop
              (min vals.length
                (if rsz then listResize fk old vals.length else old).length),
           rest) := by
  simp only [readBoundList, if_neg h1, readScalarV_cons prop.listKind h1, hlen]
  rw [fillFrom_take prop.valueKind fk h2 _ vals rest _ (min_le_left _ _) (min_le_right _ _)]
  rw [← List.length_drop]
  have hdis := discardN_spec prop.valueKind h2
    (vals.drop (vals.length ⊓ (if rsz = true then listResize fk old vals.length else old).length))
    rest
  simp only [hdis]

theorem listResize_length (fk : ScalarKind) (old : List PlyScalar) (n : Nat) :
    (listResize fk old n).length = n := by
  simp only [listResize, List.length_append, List.length_take, List.length_replicate]
  omega

/-- C2: the bound list-field callback of `bind_reader`, on a row whose
on-disk list length is `n = vals.length`: an open-ended (resizable
vector) destination is resized to exactly `n` and receives all `n` values
cast to the field's scalar kind; a fixed-capacity destination of capacity
`c = old.length` receives exactly the first `min n c` values (the
remaining slots keep their previous contents) while the remaining
`n - min n c` values are read and discarded; no error is raised in either
case and the stream is left exactly past the row's list. The hypotheses
restrict to the modelled region: non-UNUSED kinds, an integer-kind
destination field, and integer-alternative wire scalars. -/
theorem bound_list_read_lengths :
    ∀ (prop : Property) (fk : ScalarKind) (lv : PlyScalar)
      (vals rest old : List PlyScalar),
      prop.listKind ≠ .unused → prop.valueKind ≠ .unused →
      fk.isIntKind = true → lv.isIntLike = true →
      (∀ v ∈ vals, v.isIntLike = true) →
      castToUnsigned 64 lv = vals.length →
      readBoundList true prop fk old (lv :: (vals ++ rest)) =
          .ok (vals.map (ply_cast fk), rest) ∧
      readBoundList false prop fk old (lv :: (vals ++ rest)) =
          .ok ((vals.take (min vals.length old.length)).map (ply_cast fk)
                ++ old.drop (min vals.length old.length), rest) := by
  intro prop fk lv vals rest old h1 h2 _ _ _ hlen
  constructor
  · rw [readBoundList_run true prop fk lv vals rest old h1 h2 hlen]
    have hdrop : (listResize fk old vals.length).drop vals.length = [] :=
      List.drop_eq_nil_of_le (by rw [listResize_length])
    simp only [if_true, listResize_length, min_self, List.take_length, hdrop,
      List.append_nil]
  · rw [readBoundList_run false prop fk lv vals rest old h1 h2 hlen]
    simp

/-- C2 witness, the spec's truncation example: a list of on-disk length 5
read into an open-ended destination yields all 5 values, and into a
fixed-capacity-3 destination yields exactly the first 3 with the
remaining 2 silently discarded, no error in either case. -/
theorem bound_list_read_lengths_witness :
    readBoundList true
        { name := "vertex_indices".toList, valueKind := .int32, listKind := .uint8 }
        .uint32 [.u32 0, .u32 0, .u32 0]
        (.u8 5 :: ([.i32 1, .i32 2, .i32 3, .i32 4, .i32 5] ++ [])) =
      .ok ([.u32 1, .u32 2, .u32 3, .u32 4, .u32 5], []) ∧
    readBoundList false
        { name := "vertex_indices".toList, valueKind := .int32, listKind := .uint8 }
        .uint32 [.u32 0, .u32 0, .u32 0]
        (.u8 5 :: ([.i32 1, .i32 2, .i32 3, .i32 4, .i32 5] ++ [])) =
      .ok ([.u32 1, .u32 2, .u32 3], []) := by
  have h := bound_list_read_lengths
    { name := "vertex_indices".toList, valueKind := .int32, listKind := .uint8 }
    .uint32 (.u8 5) [.i32 1, .i32 2, .i32 3, .i32 4, .i32 5] []
    [.u32 0, .u32 0, .u32 0]
    (by decide) (by decide) (by decide) (by decide) (by decide) (by decide)
  exact ⟨h.1, h.2⟩

theorem processProp_consumes (p : Property) (b : Binding) (seg s : List PlyScalar)
    (hwf : segWF p seg = true) (hc : bindingCompat p b = true) :
    processProp p b (seg ++ s) = .ok s := by
  by_cases hl : p.listKind = .unused
  · -- plain property
    rw [segWF.eq_def, if_pos hl] at hwf
    simp only [Bool.and_eq_true, bne_iff_ne, beq_iff_eq] at hwf
    obtain ⟨hv, hlen⟩ := hwf
    obtain ⟨v, rfl⟩ := List.length_eq_one.mp hlen
    cases b with
    | unbound =>
      simp [processProp, defaultColumnReader, hl, readScalarV_cons _ hv]
    | scalarField fk =>
      simp [processProp, readBoundScalar, hl, readScalarV_cons _ hv, Except.map]
    | listField rsz fk old =>
      simp only [bindingCompat, bne_iff_ne] at hc
      exact absurd hl hc
  · -- list property
    rw [segWF.eq_def, if_neg hl] at hwf
    cases seg with
    | nil => simp at hwf
    | cons lv vs =>
      simp only [Bool.and_eq_true, bne_iff_ne, beq_iff_eq] at hwf
      obtain ⟨⟨⟨hv, _⟩, h32⟩, h64⟩ := hwf
      cases b with
      | unbound =>
        simp only [processProp, defaultColumnReader, if_pos hl, List.cons_append,
          readScalarV_cons p.listKind hl, h32]
        exact discardN_spec p.valueKind hv vs s
      | scalarField fk =>
        simp only [bindingCompat, beq_iff_eq] at hc
        exact absurd hc hl
      | listField rsz fk old =>
        simp only [processProp, List.cons_append]
        rw [readBoundList_run rsz p fk lv vs s old hl hv h64]
        simp [Except.map]

theorem processRow_consumes :
    ∀ (pbs : List (Property × Binding)) (segs : List (List PlyScalar))
      (rest : List PlyScalar),
      pbs.length = segs.length →
      (∀ pr ∈ pbs.zip segs, segWF pr.1.1 pr.2 = true ∧ bindingCompat pr.1.1 pr.1.2 = true) →
      processRow pbs (segs.flatten ++ rest) = .ok rest := by
  intro pbs
  induction pbs with
  | nil =>
    intro segs rest hl _
    obtain rfl : segs = [] := List.length_eq_zero.mp hl.symm
    simp [processRow]
  | cons pb pbs ih =>
    intro segs rest hl hwf
    cases segs with
    | nil => simp at hl
    | cons seg segs =>
      obtain ⟨p, b⟩ := pb
      have hw := hwf ((p, b), seg)
        (by rw [List.zip_cons_cons]; exact List.mem_cons_self _ _)
      simp only [List.flatten_cons, List.append_assoc, processRow,
        processProp_consumes p b seg (segs.flatten ++ rest) hw.1 hw.2]
      exact ih segs rest (by simpa using hl)
        (fun pr hpr => hwf pr (by rw [List.zip_cons_cons]; exact List.mem_cons_of_mem _ hpr))

theorem processRows_consumes (pbs : List (Property × Binding)) :
    ∀ (rows : List (List (List PlyScalar))) (rest : List PlyScalar),
      (∀ r ∈ rows, pbs.length = r.length ∧
        ∀ pr ∈ pbs.zip r, segWF pr.1.1 pr.2 = true ∧ bindingCompat pr.1.1 pr.1.2 = true) →
      processRows pbs rows.length ((rows.map List.flatten).flatten ++ rest) = .ok rest := by
  intro rows
  induction rows with
  | nil =>
    intro rest _
    simp [processRows]
  | cons r rows ih =>
    intro rest hwf
    have hr := hwf r (List.mem_cons_self _ _)
    simp only [List.map_cons, List.flatten_cons, List.length_cons, List.append_assoc,
      processRows,
      processRow_consumes pbs r ((rows.map List.flatten).flatten ++ rest) hr.1 hr.2]
    exact ih rest (fun r' hr' => hwf r' (List.mem_cons_of_mem _ hr'))

/-- C3: `bind_reader` consumes each row in the on-disk property order —
the row is the concatenation of the per-property wire segments in
`elem.properties` order and the callbacks run left to right down exactly
that concatenation — and every property, bound or not, consumes exactly
its own segment: an unbound property's default callback reads and
discards one value scalar (plain) or a length scalar plus that many value
scalars (list), so unbound on-disk columns are skipped value-for-value;
the row loop iterates this for rows `0 .. count-1`, never raising an
error on well-formed rows. -/
theorem row_consumption_on_disk_order :
    (∀ (p : Property) (b : Binding) (seg s : List PlyScalar),
      segWF p seg = true → bindingCompat p b = true →
      processProp p b (seg ++ s) = .ok s) ∧
    (∀ (pbs : List (Property × Binding)) (segs : List (List PlyScalar))
        (rest : List PlyScalar),
      pbs.length = segs.length →
      (∀ pr ∈ pbs.zip segs, segWF pr.1.1 pr.2 = true ∧ bindingCompat pr.1.1 pr.1.2 = true) →
      processRow pbs (segs.flatten ++ rest) = .ok rest) ∧
    (∀ (pbs : List (Property × Binding)) (rows : List (List (List PlyScalar)))
        (rest : List PlyScalar),
      (∀ r ∈ rows, pbs.length = r.length ∧
        ∀ pr ∈ pbs.zip r, segWF pr.1.1 pr.2 = true ∧ bindingCompat pr.1.1 pr.1.2 = true) →
      processRows pbs rows.length ((rows.map List.flatten).flatten ++ rest) = .ok rest) :=
  ⟨processProp_consumes, processRow_consumes, processRows_consumes⟩

/-- C3 witness: a row with an unbound plain float property followed by an
unbound list property (length 2) is consumed exactly, leaving the next
wire value on the stream. -/
theorem row_consumption_on_disk_order_witness :
    processRow
        [({ name := "x".toList, valueKind := .float32, listKind := .unused }, .unbound),
         ({ name := "idx".toList, valueKind := .int32, listKind := .uint8 }, .unbound)]
        ([[.f32 7], [.u8 2, .i32 5, .i32 6]].flatten ++ [.u8 9]) =
      .ok [.u8 9] :=
  row_consumption_on_disk_order.2.1
    [({ name := "x".toList, valueKind := .float32, listKind := .unused }, .unbound),
     ({ name := "idx".toList, valueKind := .int32, listKind := .uint8 }, .unbound)]
    [[.f32 7], [.u8 2, .i32 5, .i32 6]] [.u8 9] rfl (by decide)

end TurboPly
